import Mathlib

/-!
Shallow embedding of the RAG subsystem of the chat.ai repository:
the sentence-based chunker (`ChunkingService.chunkText`), the LLM rerank
pipeline (`OllamaService.rerank` / `evaluateRelevance` score extraction),
the cosine-similarity scorer (`cosineSimilarity`), the query orchestrator
(`RagService.query`) and the transactional bulk insert
(`EmbeddingRepository.saveEmbeddings`).

Numeric scores (floats in the source) are modelled as rationals.  The
external Ollama HTTP service is modelled as an oracle: per-call raw
response strings (`Option String`, `none` = network/HTTP failure).  The
`gpt-3-encoder` tokenizer is modelled as an arbitrary token-count
function `tok : String → Nat` passed as a parameter.
-/

/-! ### Chunker (src/backend/src/services/chunking.service.ts) -/

/-- A chunk of text as produced by `ChunkingService.chunkText`
(`TextChunk` in `embedding.types.ts`). -/
structure TextChunk where
  text : String
  token_count : Nat
  chunk_index : Nat
deriving DecidableEq

/-- Internal view of a chunk that keeps the sentence list the source code
builds up in `currentChunk`; `chunkText` renders it by joining the
sentences with a single space (`currentChunk.join(' ')`). -/
structure SChunk where
  sentences : List String
  token_count : Nat
  chunk_index : Nat
deriving DecidableEq

/-- Sentence-final punctuation recognised by `splitIntoSentences`
(the regex `(?<=[.!?])\s+`). -/
def isSentencePunct (c : Char) : Bool :=
  c == '.' || c == '!' || c == '?'

/-- Character-level model of `text.split(/(?<=[.!?])\s+/)`: a whitespace
character that immediately follows `.`, `!` or `?` ends the current
piece (the whitespace run is consumed by the separator; any surplus
whitespace lands at the start of the next piece and is removed by the
`trim` applied to every piece afterwards, matching the JS pipeline
up to `trim`).  The accumulator holds the current piece reversed. -/
def sentencePieces : List Char → List Char → List (List Char)
  | [], acc => [acc.reverse]
  | c :: rest, acc =>
    if c.isWhitespace && (match acc with | p :: _ => isSentencePunct p | [] => false) then
      acc.reverse :: sentencePieces rest []
    else
      sentencePieces rest (c :: acc)

/-- Character-level model of `String.prototype.trim`: drop leading and
trailing whitespace. -/
def trimChars (cs : List Char) : List Char :=
  ((cs.dropWhile Char.isWhitespace).reverse.dropWhile Char.isWhitespace).reverse

/-- Model of `ChunkingService.splitIntoSentences`: split on whitespace
following sentence punctuation, trim every piece, drop empty pieces. -/
def splitIntoSentences (text : String) : List String :=
  ((sentencePieces text.data []).map fun cs => String.mk (trimChars cs)).filter
    fun s => decide (0 < s.length)

/-- Combined token count of a list of sentences under tokenizer `tok`. -/
def sumTok (tok : String → Nat) (l : List String) : Nat :=
  (l.map tok).sum

/-- Model of the backward overlap walk in `chunkText` (lines 40-50):
starting from the end of the just-closed chunk, keep taking sentences
while the accumulated token count is below `overlap` and adding the next
sentence stays at or under `overlap`; stop at the first sentence that
does not fit.  The first argument is the remaining (reversed) chunk, the
second the sentences collected so far (`overlapSentences`), the third
the accumulated token count (`overlapTokens`). -/
def goSeed (tok : String → Nat) (overlap : Nat) :
    List String → List String → Nat → List String × Nat
  | [], acc, o => (acc, o)
  | s :: rest, acc, o =>
    if o < overlap then
      if o + tok s ≤ overlap then goSeed tok overlap rest (s :: acc) (o + tok s)
      else (acc, o)
    else (acc, o)

/-- The overlap seed for a just-closed chunk: the maximal suffix collected
by the backward walk, together with its token count. -/
def overlapSeed (tok : String → Nat) (overlap : Nat) (chunk : List String) :
    List String × Nat :=
  goSeed tok overlap chunk.reverse [] 0

/-- The main sentence-accumulation loop of `chunkText` (lines 23-69).
State: remaining sentences, `currentChunk`, `currentTokenCount`,
`chunkIndex`.  When adding the next sentence would exceed `maxTokens`
and the current chunk is non-empty, the current chunk is emitted and the
new chunk is seeded with the overlap suffix; the triggering sentence is
then pushed unconditionally.  After the loop any non-empty remainder is
emitted. -/
def chunkLoop (tok : String → Nat) (maxTokens overlap : Nat) :
    List String → List String → Nat → Nat → List SChunk
  | [], cur, c, idx => if cur.isEmpty then [] else [⟨cur, c, idx⟩]
  | s :: rest, cur, c, idx =>
    if maxTokens < c + tok s && !cur.isEmpty then
      ⟨cur, c, idx⟩ ::
        chunkLoop tok maxTokens overlap rest
          ((overlapSeed tok overlap cur).1 ++ [s])
          ((overlapSeed tok overlap cur).2 + tok s) (idx + 1)
    else
      chunkLoop tok maxTokens overlap rest (cur ++ [s]) (c + tok s) idx

/-- Sentence-level model of `ChunkingService.chunkText`: empty or
whitespace-only text yields no chunks; otherwise the text is split into
sentences and fed to the accumulation loop. -/
def chunkTextS (tok : String → Nat) (text : String) (maxTokens overlap : Nat) :
    List SChunk :=
  if (trimChars text.data).length = 0 then []
  else chunkLoop tok maxTokens overlap (splitIntoSentences text) [] 0 0

/-- Model of `ChunkingService.chunkText`: the sentence-level chunks with
each chunk rendered as `currentChunk.join(' ')`. -/
def chunkText (tok : String → Nat) (text : String) (maxTokens overlap : Nat) :
    List TextChunk :=
  (chunkTextS tok text maxTokens overlap).map fun ch =>
    ⟨String.intercalate " " ch.sentences, ch.token_count, ch.chunk_index⟩

/-! ### Relevance-score extraction (OllamaService.evaluateRelevance) -/

/-- Does the character list start with a digit?  Used for the
`\.?\d+` part of the score regex. -/
def headIsDigit : List Char → Bool
  | c :: _ => c.isDigit
  | [] => false

/-- The token matched by the regex `(\d*\.?\d+)` at a position starting
with a digit: the maximal digit run, extended by `.` and a second digit
run when the dot is immediately followed by at least one digit. -/
def numToken (cs : List Char) : List Char :=
  match (cs.span Char.isDigit).2 with
  | '.' :: r2 =>
    if ((r2.span Char.isDigit).1).isEmpty then (cs.span Char.isDigit).1
    else (cs.span Char.isDigit).1 ++ '.' :: (r2.span Char.isDigit).1
  | _ => (cs.span Char.isDigit).1

/-- Leftmost match of the regex `(\d*\.?\d+)`: scan for the first
position where the pattern can match (a digit, or a dot immediately
followed by a digit) and return the greedy match there. -/
def firstNumberToken : List Char → Option (List Char)
  | [] => none
  | c :: rest =>
    if c.isDigit then some (numToken (c :: rest))
    else if c == '.' && headIsDigit rest then
      some ('.' :: (rest.span Char.isDigit).1)
    else firstNumberToken rest

/-- Numeric value of a list of decimal digit characters. -/
def natOfDigits (l : List Char) : Nat :=
  l.foldl (fun n c => 10 * n + (c.toNat - '0'.toNat)) 0

/-- Value of a matched number token (`D`, `D.E` or `.E`), as a rational.
This models `parseFloat` on the matched string. -/
def decValue (t : List Char) : ℚ :=
  match (t.span Char.isDigit).2 with
  | '.' :: e => (natOfDigits (t.span Char.isDigit).1 : ℚ) +
      (natOfDigits (e.span Char.isDigit).1 : ℚ) / (10 ^ (e.span Char.isDigit).1.length : ℚ)
  | _ => (natOfDigits (t.span Char.isDigit).1 : ℚ)

/-- Model of the score-parsing tail of `OllamaService.evaluateRelevance`
(part_022 lines 203-218): trim the raw response, regex-extract the first
number, default to `0.5` when there is no match, otherwise clamp the
parsed value to `[0, 1]` via `Math.max(0, Math.min(1, score))`. -/
def extractScore (response : String) : ℚ :=
  match firstNumberToken (trimChars response.data) with
  | none => 1 / 2
  | some t => max 0 (min 1 (decValue t))

/-! ### Reranker (OllamaService.rerank) -/

/-- Result entry produced by `OllamaService.rerank`
(`RerankResult` in part_022). -/
structure RerankResult where
  index : Nat
  relevanceScore : ℚ
deriving DecidableEq

/-- Comparator used to model the stable JS sort
`results.sort((a, b) => b.relevanceScore - a.relevanceScore)`:
`a` may stay before `b` exactly when its score is at least as large. -/
def rerankLE (a b : RerankResult) : Prop :=
  b.relevanceScore ≤ a.relevanceScore

instance : DecidableRel rerankLE := fun a b =>
  inferInstanceAs (Decidable (b.relevanceScore ≤ a.relevanceScore))

instance : IsTotal RerankResult rerankLE :=
  ⟨fun a b => le_total b.relevanceScore a.relevanceScore⟩

instance : IsTrans RerankResult rerankLE :=
  ⟨fun _ _ _ h1 h2 => le_trans h2 h1⟩

/-- Outcome of one `evaluateRelevance` call, given the oracle value for
that call: `none` models a thrown error (timeout, non-2xx, malformed
response), `some raw` a successful generation whose raw response text is
`raw`; the score is then the parsed, clamped value. -/
def evalScore (respCall : Option String) : Option ℚ :=
  respCall.map extractScore

/-- Model of `OllamaService.rerank` (part_022 lines 126-148): evaluate
every document in order (the oracle `resp` gives the generation service
outcome of the i-th call), push `{index: i, relevanceScore: score}` on
success and `{index: i, relevanceScore: 0}` when the call throws, then
sort descending by relevance score.  `Array.prototype.sort` is a stable
sort, modelled by the stable `List.insertionSort`. -/
def rerank (resp : Nat → Option String) (_query : String) (documents : List String) :
    List RerankResult :=
  List.insertionSort rerankLE
    ((List.range documents.length).map fun i =>
      ⟨i, ((evalScore (resp i)).getD 0)⟩)

/-! ### Similarity scorer (src/unnamed/part_036, `cosineSimilarity`) -/

/-- Sum of pairwise products of two vectors (the `dotProduct`
accumulator). -/
def sumProd (a b : List ℚ) : ℚ :=
  (List.zipWith (fun x y => x * y) a b).sum

/-- Sum of squares of a vector (the `normA` / `normB` accumulators,
before the square root). -/
def sumSq (a : List ℚ) : ℚ :=
  (a.map fun x => x * x).sum

/-- Model of `cosineSimilarity` (part_036 lines 15-37): throw on a
length mismatch, compute `dot / (sqrt(normA) * sqrt(normB))`, and return
`0` instead of dividing when the denominator is zero.  `Math.sqrt` is
modelled by `Rat.sqrt`, which like the ideal square root is zero exactly
on zero (for non-negative inputs). -/
def cosineSimilarity (vecA vecB : List ℚ) : Except String ℚ :=
  if vecA.length ≠ vecB.length then
    Except.error "Vectors must have the same length"
  else
    if Rat.sqrt (sumSq vecA) * Rat.sqrt (sumSq vecB) = 0 then Except.ok 0
    else Except.ok (sumProd vecA vecB / (Rat.sqrt (sumSq vecA) * Rat.sqrt (sumSq vecB)))

/-! ### Data model (embedding.types.ts / pdf_embeddings schema) -/

/-- Stored embedding record (`PDFEmbedding` plus the `chunk_text` column
of the `pdf_embeddings` table; nullable columns are `Option`). -/
structure PDFEmbedding where
  id : Nat
  filename : String
  chunk_index : Nat
  chunk_text : Option String
  embedding : List ℚ
  embedding_model : String
  dimension : Nat
  token_count : Option Nat
  created_at : String
deriving DecidableEq

/-- Default record used to model the JS array access
`candidates[result.index]` (in every reachable state the index is in
range, so the default is never actually produced). -/
def emptyPDFEmbedding : PDFEmbedding :=
  ⟨0, "", 0, none, [], "", 0, none, ""⟩

/-! ### Retrieval orchestrator (RagService.query) -/

/-- One element of the result list of `RagService.query`
(`RagChunkResult`). -/
structure RagChunkResult where
  text : String
  filename : String
  chunkIndex : Nat
  similarity : ℚ
  relevanceScore : ℚ
  tokenCount : Nat
deriving DecidableEq

/-- Query-level metadata attached to every result
(`RagQueryResult.metadata`). -/
structure RagMetadata where
  totalChunks : Nat
  candidatesEvaluated : Nat
  resultsReturned : Nat
  threshold : ℚ
deriving DecidableEq

/-- Full return value of `RagService.query` (`RagQueryResult`). -/
structure RagQueryResult where
  query : String
  results : List RagChunkResult
  metadata : RagMetadata
deriving DecidableEq

/-- A stored record joined with its computed cosine similarity (the
spread `{...emb, similarity}` in `RagService.query`). -/
structure SimRec where
  emb : PDFEmbedding
  similarity : ℚ
deriving DecidableEq

/-- Default similarity record (see `emptyPDFEmbedding`). -/
def emptySimRec : SimRec :=
  ⟨emptyPDFEmbedding, 0⟩

/-- Comparator modelling the stable JS sort
`.sort((a, b) => b.similarity - a.similarity)` on similarity records. -/
def simLE (a b : SimRec) : Prop :=
  b.similarity ≤ a.similarity

instance : DecidableRel simLE := fun a b =>
  inferInstanceAs (Decidable (b.similarity ≤ a.similarity))

instance : IsTotal SimRec simLE :=
  ⟨fun a b => le_total b.similarity a.similarity⟩

instance : IsTrans SimRec simLE :=
  ⟨fun _ _ _ h1 h2 => le_trans h2 h1⟩

/-- Cosine similarity of the query embedding against every stored
record, in storage order (the `allEmbeddings.map(...)` step); a
similarity failure (dimension mismatch) aborts the whole query, as the
thrown exception would in the source. -/
def computeSimilarities (queryEmbedding : List ℚ) :
    List PDFEmbedding → Except String (List SimRec)
  | [] => Except.ok []
  | e :: rest =>
    match cosineSimilarity queryEmbedding e.embedding with
    | Except.error msg => Except.error msg
    | Except.ok s =>
      match computeSimilarities queryEmbedding rest with
      | Except.error msg => Except.error msg
      | Except.ok tail => Except.ok (⟨e, s⟩ :: tail)

/-- Rendering of one surviving candidate into a `RagChunkResult`
(the final `.map` of `RagService.query`); `chunk_text || ''` and
`token_count || 0` are the JS falsy coalescings. -/
def toChunkResult (c : SimRec × ℚ) : RagChunkResult :=
  { text := c.1.emb.chunk_text.getD "",
    filename := c.1.emb.filename,
    chunkIndex := c.1.emb.chunk_index,
    similarity := c.1.similarity,
    relevanceScore := c.2,
    tokenCount := c.1.emb.token_count.getD 0 }

/-- Model of `RagService.query` (rag.service.ts lines 47-121) from the
point where the query embedding and the stored records are in hand (the
availability ping and the embedding call are external effects preceding
the algorithm; a query that fails there never reaches this code).
Steps: fail on an empty store; compute all similarities; sort descending
by similarity (stable); take the first `min initialTopK length`
candidates; rerank their texts (`chunk_text || ''`); map rerank results
back onto candidates; filter by `relevanceScore >= threshold`; truncate
to `topN`; render results and metadata. -/
def ragQuery (resp : Nat → Option String) (query : String)
    (queryEmbedding : List ℚ) (allEmbeddings : List PDFEmbedding)
    (topN : Nat) (threshold : ℚ) (initialTopK : Nat) :
    Except String RagQueryResult :=
  if allEmbeddings.length = 0 then
    Except.error "No embeddings found in database. Please use the process_pdfs tool to index PDF files first."
  else
    match computeSimilarities queryEmbedding allEmbeddings with
    | Except.error msg => Except.error msg
    | Except.ok sims =>
      let similarities := List.insertionSort simLE sims
      let candidates := similarities.take (min initialTopK similarities.length)
      let documents := candidates.map fun c => c.emb.chunk_text.getD ""
      let rerankResults := rerank resp query documents
      let rankedCandidates :=
        rerankResults.map fun r => (candidates.getD r.index emptySimRec, r.relevanceScore)
      let results :=
        ((rankedCandidates.filter fun c => decide (threshold ≤ c.2)).take topN).map
          toChunkResult
      Except.ok
        { query := query,
          results := results,
          metadata :=
            { totalChunks := allEmbeddings.length,
              candidatesEvaluated := candidates.length,
              resultsReturned := results.length,
              threshold := threshold } }

/-! ### Vector store (EmbeddingRepository.saveEmbeddings) -/

/-- Input record for `saveEmbeddings`
(`Omit<PDFEmbedding, 'id' | 'created_at'>` plus the chunk text). -/
structure EmbeddingInput where
  filename : String
  chunk_index : Nat
  chunk_text : Option String
  embedding : List ℚ
  embedding_model : String
  dimension : Nat
  token_count : Option Nat
deriving DecidableEq

/-- Row written by the `INSERT INTO pdf_embeddings` statement.  The
source stores `chunk_text || null` and `token_count || null` (JS falsy
coalescing: empty string and zero also become NULL) and serializes the
vector with `JSON.stringify`; the vector is kept as the rational list
it round-trips to. -/
structure EmbeddingRow where
  filename : String
  chunk_index : Nat
  chunk_text : Option String
  embedding : List ℚ
  embedding_model : String
  dimension : Nat
  token_count : Option Nat
deriving DecidableEq

/-- The row a given input record inserts (the argument list of the
`db.run` call inside the loop). -/
def toRow (e : EmbeddingInput) : EmbeddingRow :=
  { filename := e.filename,
    chunk_index := e.chunk_index,
    chunk_text := match e.chunk_text with
      | some s => if s = "" then none else some s
      | none => none,
    embedding := e.embedding,
    embedding_model := e.embedding_model,
    dimension := e.dimension,
    token_count := match e.token_count with
      | some n => if n = 0 then none else some n
      | none => none }

/-- SQL statements `saveEmbeddings` issues against the storage backend
(`BEGIN TRANSACTION`, row inserts, `COMMIT`, `ROLLBACK`). -/
inductive DbOp where
  | beginTxn : DbOp
  | insertRow : EmbeddingRow → DbOp
  | commitTxn : DbOp
  | rollbackTxn : DbOp
deriving DecidableEq

/-- State of the storage backend: committed rows plus the pending rows
of an open transaction, if one is open. -/
structure DbState where
  committed : List EmbeddingRow
  txn : Option (List EmbeddingRow)
deriving DecidableEq

/-- Transactional semantics of the backend: inserts inside an open
transaction stay pending; `COMMIT` appends the pending rows to the
committed table; `ROLLBACK` discards them. -/
def applyOp (s : DbState) : DbOp → DbState
  | DbOp.beginTxn => { s with txn := some [] }
  | DbOp.insertRow r =>
    match s.txn with
    | some p => { s with txn := some (p ++ [r]) }
    | none => { s with committed := s.committed ++ [r] }
  | DbOp.commitTxn =>
    match s.txn with
    | some p => { committed := s.committed ++ p, txn := none }
    | none => s
  | DbOp.rollbackTxn => { s with txn := none }

/-- Run a sequence of statements against the backend. -/
def runOps (s : DbState) (ops : List DbOp) : DbState :=
  ops.foldl applyOp s

/-- The insert loop of `saveEmbeddings`: issue one `INSERT` per record
until the first failing insert (the oracle `fails i` says whether the
i-th insert statement fails; a failing insert changes nothing and the
raised error leaves the loop).  Returns the issued inserts and whether
the loop completed. -/
def loopOps (fails : Nat → Bool) : List EmbeddingInput → Nat → List DbOp × Bool
  | [], _ => ([], true)
  | e :: rest, i =>
    if fails i then ([], false)
    else
      ((DbOp.insertRow (toRow e)) :: (loopOps fails rest (i + 1)).1,
        (loopOps fails rest (i + 1)).2)

/-- Did the bulk insert of `saveEmbeddings` complete without failure? -/
def saveOk (fails : Nat → Bool) (records : List EmbeddingInput) : Bool :=
  (loopOps fails records 0).2

/-- Statement trace of `EmbeddingRepository.saveEmbeddings`
(embedding.repository.ts lines 12-40): nothing at all for an empty
input; otherwise `BEGIN TRANSACTION`, the inserts up to the first
failure, then `COMMIT` on success or `ROLLBACK` when an insert threw. -/
def saveEmbeddings (fails : Nat → Bool) (records : List EmbeddingInput) : List DbOp :=
  if records.length = 0 then []
  else
    DbOp.beginTxn :: (loopOps fails records 0).1 ++
      [if saveOk fails records then DbOp.commitTxn else DbOp.rollbackTxn]

/-- Outcome of `saveEmbeddings` as seen by the caller: an early return
for empty input, success after `COMMIT`, and a thrown `DatabaseError`
after `ROLLBACK`. -/
def saveResult (fails : Nat → Bool) (records : List EmbeddingInput) : Except String Unit :=
  if records.length = 0 then Except.ok ()
  else if saveOk fails records then Except.ok ()
  else Except.error "Failed to save embeddings"

/-- Default chunk used with `List.getD` when stating facts about
positions of the chunk list. -/
def dSChunk : SChunk :=
  ⟨[], 0, 0⟩

/-! ## Theorems -/

/-! ### Rerank helpers -/

theorem rerank_perm (resp : Nat → Option String) (query : String) (documents : List String) :
    (rerank resp query documents).Perm
      ((List.range documents.length).map fun i =>
        (⟨i, (evalScore (resp i)).getD 0⟩ : RerankResult)) :=
  List.perm_insertionSort rerankLE _

theorem rerank_length (resp : Nat → Option String) (query : String) (documents : List String) :
    (rerank resp query documents).length = documents.length := by
  rw [(rerank_perm resp query documents).length_eq, List.length_map, List.length_range]

theorem rerank_sorted (resp : Nat → Option String) (query : String) (documents : List String) :
    List.Pairwise rerankLE (rerank resp query documents) :=
  List.sorted_insertionSort rerankLE _

theorem rerank_mem (resp : Nat → Option String) (query : String) (documents : List String)
    (i : Nat) (hi : i < documents.length) :
    (⟨i, (evalScore (resp i)).getD 0⟩ : RerankResult) ∈ rerank resp query documents := by
  rw [(rerank_perm resp query documents).mem_iff]
  exact List.mem_map_of_mem _ (List.mem_range.mpr hi)

/-- C9: for every query and document list of length n, `rerank` returns
exactly n results, and the multiset of `index` fields of the results is
exactly {0, ..., n-1}: each input document is scored exactly once,
none dropped or duplicated, regardless of per-document failures. -/
theorem rerank_complete (resp : Nat → Option String) (query : String) (documents : List String) :
    (rerank resp query documents).length = documents.length ∧
    ((rerank resp query documents).map (fun r => r.index)).Perm
      (List.range documents.length) := by
  refine ⟨rerank_length resp query documents, ?_⟩
  have h := (rerank_perm resp query documents).map (fun r => r.index)
  simpa [List.map_map, Function.comp_def, List.map_id'] using h

/-- C4: per-document `evaluateRelevance` failures do not propagate out
of `rerank`: a failed document appears in the output with relevance
score 0, a succeeded document appears with its parsed score, the output
covers all documents and is sorted descending by relevance score. -/
theorem rerank_error_handling (resp : Nat → Option String) (query : String)
    (documents : List String) :
    (rerank resp query documents).length = documents.length ∧
    List.Pairwise rerankLE (rerank resp query documents) ∧
    ∀ i, i < documents.length →
      (resp i = none → (⟨i, 0⟩ : RerankResult) ∈ rerank resp query documents) ∧
      (∀ raw, resp i = some raw →
        (⟨i, extractScore raw⟩ : RerankResult) ∈ rerank resp query documents) := by
  refine ⟨rerank_length resp query documents, rerank_sorted resp query documents,
    fun i hi => ⟨fun hn => ?_, fun raw hr => ?_⟩⟩
  · simpa [evalScore, hn] using rerank_mem resp query documents i hi
  · simpa [evalScore, hr] using rerank_mem resp query documents i hi

/-- Witness for C4 at a concrete input: document 0 fails, document 1
answers "0.7". -/
theorem rerank_error_handling_witness :
    ((⟨0, 0⟩ : RerankResult) ∈
      rerank (fun i => if i = 0 then none else some "0.7") "q" ["a", "b"]) ∧
    ((⟨1, extractScore "0.7"⟩ : RerankResult) ∈
      rerank (fun i => if i = 0 then none else some "0.7") "q" ["a", "b"]) :=
  ⟨((rerank_error_handling (fun i => if i = 0 then none else some "0.7") "q" ["a", "b"]).2.2
      0 (by decide)).1 rfl,
   ((rerank_error_handling (fun i => if i = 0 then none else some "0.7") "q" ["a", "b"]).2.2
      1 (by decide)).2 "0.7" rfl⟩

/-- Counterexample for C6: an empty-string document is not assigned
relevance score 0 — it is scored by the model like any other document.
Here the model answers "0.9" for the empty document at index 0, and the
returned score for index 0 is 9/10, not 0. -/
theorem rerank_empty_doc_counterexample :
    (["", "relevant text"].getD 0 "x" = "") ∧
    ((⟨0, 1⟩ : RerankResult) ∈
      rerank (fun i => if i = 0 then some "1" else some "0") "q" ["", "relevant text"]) ∧
    (∀ r ∈ rerank (fun i => if i = 0 then some "1" else some "0") "q" ["", "relevant text"],
      r.index = 0 → r.relevanceScore ≠ 0) := by
  decide

/-- C6 (amended): an empty-string document never makes the batch fail,
but it is not special-cased either: like any other document its score is
the clamped parse of the model's raw response when the call succeeds,
and 0 only when the call fails. -/
theorem rerank_empty_doc (resp : Nat → Option String) (query : String)
    (documents : List String) (i : Nat) (hi : i < documents.length)
    (_hempty : documents.getD i "x" = "") :
    (rerank resp query documents).length = documents.length ∧
    (resp i = none → (⟨i, 0⟩ : RerankResult) ∈ rerank resp query documents) ∧
    (∀ raw, resp i = some raw →
      (⟨i, extractScore raw⟩ : RerankResult) ∈ rerank resp query documents) := by
  refine ⟨rerank_length resp query documents, fun hn => ?_, fun raw hr => ?_⟩
  · simpa [evalScore, hn] using rerank_mem resp query documents i hi
  · simpa [evalScore, hr] using rerank_mem resp query documents i hi

/-- Witness for the amended C6 at a concrete input: the empty document
at index 0 gets the score parsed from the model response "0.9". -/
theorem rerank_empty_doc_witness :
    (rerank (fun _ => some "0.9") "q" ["", "x"]).length = 2 ∧
    ((⟨0, extractScore "0.9"⟩ : RerankResult) ∈ rerank (fun _ => some "0.9") "q" ["", "x"]) :=
  ⟨(rerank_empty_doc (fun _ => some "0.9") "q" ["", "x"] 0 (by decide) rfl).1,
   (rerank_empty_doc (fun _ => some "0.9") "q" ["", "x"] 0 (by decide) rfl).2.2 "0.9" rfl⟩

/-! ### Score extraction (C7) -/

theorem ftok_none_of_nodigit :
    ∀ cs : List Char, (∀ c ∈ cs, c.isDigit = false) → firstNumberToken cs = none := by
  intro cs
  induction cs with
  | nil => intro _; rfl
  | cons c rest ih =>
    intro h
    have hc : c.isDigit = false := h c (List.mem_cons_self c rest)
    have hrest : headIsDigit rest = false := by
      cases rest with
      | nil => rfl
      | cons r tl => exact h r (List.mem_cons_of_mem c (List.mem_cons_self r tl))
    simp [firstNumberToken, hc, hrest]
    exact ih fun x hx => h x (List.mem_cons_of_mem c hx)

theorem ftok_isSome_of_digit :
    ∀ cs : List Char, (∃ c ∈ cs, c.isDigit = true) → ∃ t, firstNumberToken cs = some t := by
  intro cs
  induction cs with
  | nil => rintro ⟨c, hc, _⟩; cases hc
  | cons c rest ih =>
    rintro ⟨x, hx, hxd⟩
    by_cases hc : c.isDigit
    · exact ⟨numToken (c :: rest), by simp [firstNumberToken, hc]⟩
    · by_cases hdot : (c == '.' && headIsDigit rest) = true
      · exact ⟨'.' :: (rest.span Char.isDigit).1, by simp [firstNumberToken, hc, hdot]⟩
      · have hx2 : x ∈ rest := by
          cases List.mem_cons.mp hx with
          | inl he => exact absurd (he ▸ hxd) (by simpa using hc)
          | inr h2 => exact h2
        obtain ⟨t, ht⟩ := ih ⟨x, hx2, hxd⟩
        refine ⟨t, ?_⟩
        rw [firstNumberToken]
        simp only [hc, if_false]
        simpa [hdot] using ht

/-- C7: score extraction from a raw generation-model response: if the
trimmed response contains no digit (hence no decimal-or-integer number
matching the pattern), the score defaults to 1/2; otherwise the pattern
match produces a first number token, and the score is its parsed value
clamped to [0, 1]. -/
theorem extractScore_spec (s : String) :
    ((∀ c ∈ trimChars s.data, c.isDigit = false) → extractScore s = 1 / 2) ∧
    ((∃ c ∈ trimChars s.data, c.isDigit = true) →
      ∃ t, firstNumberToken (trimChars s.data) = some t ∧
        extractScore s = max 0 (min 1 (decValue t)) ∧
        0 ≤ extractScore s ∧ extractScore s ≤ 1) := by
  constructor
  · intro h
    have hn := ftok_none_of_nodigit (trimChars s.data) h
    simp [extractScore, hn]
  · intro h
    obtain ⟨t, ht⟩ := ftok_isSome_of_digit (trimChars s.data) h
    refine ⟨t, ht, by simp [extractScore, ht], ?_, ?_⟩
    · simp only [extractScore, ht]
      exact le_max_left 0 _
    · simp only [extractScore, ht]
      exact max_le (by norm_num) (min_le_left 1 _)

/-- Witness for C7 at concrete inputs: a digit-free response defaults to
1/2; the response " 1.7 is big" parses to 1.7 and clamps to 1. -/
theorem extractScore_spec_witness :
    extractScore "no" = 1 / 2 ∧
    ∃ t, firstNumberToken (trimChars (" 1.7 is big" : String).data) = some t ∧
      extractScore " 1.7 is big" = max 0 (min 1 (decValue t)) ∧
      0 ≤ extractScore " 1.7 is big" ∧ extractScore " 1.7 is big" ≤ 1 :=
  ⟨(extractScore_spec "no").1 (by decide),
   (extractScore_spec " 1.7 is big").2 (by decide)⟩

/-! ### Cosine similarity (C8) -/

/-- C8: `cosineSimilarity` is total and zero on zero-norm input: for
equal-length vectors, if either has zero norm (zero sum of squares) the
result is `ok 0` — the division-by-zero branch is guarded — and for
vectors of different lengths it fails with the dimension-mismatch
error. -/
theorem cosineSimilarity_safe (a b : List ℚ) :
    (a.length = b.length → (sumSq a = 0 ∨ sumSq b = 0) →
      cosineSimilarity a b = Except.ok 0) ∧
    (a.length ≠ b.length →
      cosineSimilarity a b = Except.error "Vectors must have the same length") := by
  constructor
  · intro hlen h0
    have hz : Rat.sqrt (sumSq a) * Rat.sqrt (sumSq b) = 0 := by
      have hs : Rat.sqrt 0 = 0 := by decide
      rcases h0 with h | h <;> rw [h, hs]
      · exact zero_mul _
      · exact mul_zero _
    unfold cosineSimilarity
    rw [if_neg (by simp [hlen]), if_pos hz]
  · intro hlen
    unfold cosineSimilarity
    rw [if_pos hlen]

/-- Witness for C8 at concrete inputs: the zero vector against [1, 2]
returns 0; a 1-vector against a 2-vector errors. -/
theorem cosineSimilarity_safe_witness :
    cosineSimilarity [0, 0] [1, 2] = Except.ok 0 ∧
    cosineSimilarity [1] [1, 2] = Except.error "Vectors must have the same length" :=
  ⟨(cosineSimilarity_safe [0, 0] [1, 2]).1 (by decide) (Or.inl (by norm_num [sumSq])),
   (cosineSimilarity_safe [1] [1, 2]).2 (by decide)⟩

/-! ### Chunking helpers -/

theorem sumTok_nil (tok : String → Nat) : sumTok tok [] = 0 := rfl

theorem sumTok_cons (tok : String → Nat) (s : String) (l : List String) :
    sumTok tok (s :: l) = tok s + sumTok tok l := by
  simp [sumTok]

theorem sumTok_reverse (tok : String → Nat) (l : List String) :
    sumTok tok l.reverse = sumTok tok l := by
  induction l with
  | nil => rfl
  | cons s rest ih => simp [sumTok] at ih ⊢; omega

theorem goSeed_shape (tok : String → Nat) (ov : Nat) :
    ∀ l acc o, ∃ k, goSeed tok ov l acc o = ((l.take k).reverse ++ acc, o + sumTok tok (l.take k)) := by
  intro l
  induction l with
  | nil => intro acc o; exact ⟨0, by simp [goSeed, sumTok]⟩
  | cons s rest ih =>
    intro acc o
    by_cases h1 : o < ov
    · by_cases h2 : o + tok s ≤ ov
      · obtain ⟨k, hk⟩ := ih (s :: acc) (o + tok s)
        refine ⟨k + 1, ?_⟩
        rw [goSeed, if_pos h1, if_pos h2, hk]
        simp [sumTok_cons]
        omega
      · exact ⟨0, by rw [goSeed, if_pos h1, if_neg h2]; simp [sumTok]⟩
    · exact ⟨0, by rw [goSeed, if_neg h1]; simp [sumTok]⟩

theorem goSeed_le (tok : String → Nat) (ov : Nat) :
    ∀ l acc o, o ≤ ov → (goSeed tok ov l acc o).2 ≤ ov := by
  intro l
  induction l with
  | nil => intro acc o h; exact h
  | cons s rest ih =>
    intro acc o h
    by_cases h1 : o < ov
    · by_cases h2 : o + tok s ≤ ov
      · rw [goSeed, if_pos h1, if_pos h2]; exact ih _ _ h2
      · rw [goSeed, if_pos h1, if_neg h2]; exact h
    · rw [goSeed, if_neg h1]; exact h

/-- The overlap seed is a suffix of the closed chunk, its recorded token
count is the sum of its sentences' token counts, and that count never
exceeds the `overlap` budget. -/
theorem overlapSeed_spec (tok : String → Nat) (ov : Nat) (chunk : List String) :
    (overlapSeed tok ov chunk).1.IsSuffix chunk ∧
    (overlapSeed tok ov chunk).2 = sumTok tok (overlapSeed tok ov chunk).1 ∧
    (overlapSeed tok ov chunk).2 ≤ ov := by
  obtain ⟨k, hk⟩ := goSeed_shape tok ov chunk.reverse [] 0
  have hle := goSeed_le tok ov chunk.reverse [] 0 (Nat.zero_le ov)
  unfold overlapSeed
  rw [hk] at hle ⊢
  refine ⟨?_, ?_, ?_⟩
  · refine ⟨(chunk.reverse.drop k).reverse, ?_⟩
    simp only [List.append_nil]
    rw [← List.reverse_append, List.take_append_drop, List.reverse_reverse]
  · simp only [List.append_nil, Nat.zero_add]
    rw [sumTok_reverse]
  · simpa using hle

/-- When the closed chunk is non-empty, the overlap budget is positive
and the chunk's last sentence fits into it, the overlap seed is
non-empty. -/
theorem overlapSeed_ne_nil (tok : String → Nat) (ov : Nat) (chunk : List String)
    (hne : chunk ≠ []) (hov : 0 < ov) (hlast : tok (chunk.getLastD "") ≤ ov) :
    (overlapSeed tok ov chunk).1 ≠ [] := by
  have hrev : chunk.reverse ≠ [] := by simpa using hne
  obtain ⟨hd, tl, he⟩ := List.exists_cons_of_ne_nil hrev
  have hhd : hd = chunk.getLastD "" := by
    have h1 : chunk.reverse.head? = some hd := by rw [he]; rfl
    rw [List.head?_reverse] at h1
    rw [List.getLastD_eq_getLast?, h1]
    rfl
  unfold overlapSeed
  rw [he, goSeed, if_pos hov, if_pos (by rw [hhd]; simpa using hlast)]
  obtain ⟨k, hk⟩ := goSeed_shape tok ov tl [hd] (0 + tok hd)
  rw [hk]
  simp

/-- Loop invariant for the token bound: every chunk the loop emits is
non-empty and has `token_count ≤ maxTokens` unless it consists of the
overlap seed plus the single sentence pushed right after the seed, in
which case its count is still at most `overlap` plus the token count of
its last sentence. -/
theorem chunkLoop_token_bound (tok : String → Nat) (maxT ov : Nat) :
    ∀ rest cur c idx,
      (cur = [] → c = 0) →
      (cur ≠ [] → c ≤ maxT ∨ c ≤ ov + tok (cur.getLastD "")) →
      ∀ ch ∈ chunkLoop tok maxT ov rest cur c idx,
        ch.sentences ≠ [] ∧
        (ch.token_count ≤ maxT ∨ ch.token_count ≤ ov + tok (ch.sentences.getLastD "")) := by
  intro rest
  induction rest with
  | nil =>
    intro cur c idx h0 hb ch hch
    rw [chunkLoop] at hch
    by_cases hcur : cur = []
    · rw [if_pos (List.isEmpty_iff.mpr hcur)] at hch
      cases hch
    · rw [if_neg (by simpa [List.isEmpty_iff] using hcur)] at hch
      rcases List.mem_singleton.mp hch with rfl
      exact ⟨hcur, hb hcur⟩
  | cons s rest ih =>
    intro cur c idx h0 hb ch hch
    rw [chunkLoop] at hch
    by_cases hcond : (decide (maxT < c + tok s) && !cur.isEmpty) = true
    · rw [if_pos hcond] at hch
      have hcur : cur ≠ [] := by
        have := (Bool.and_eq_true _ _).mp hcond
        simpa [List.isEmpty_iff] using this.2
      rcases List.mem_cons.mp hch with rfl | hmem
      · exact ⟨hcur, hb hcur⟩
      · refine ih _ _ _ (by simp) (fun _ => Or.inr ?_) ch hmem
        have hseed := (overlapSeed_spec tok ov cur).2.2
        rw [List.getLastD_concat]
        omega
    · rw [if_neg hcond] at hch
      have hcond2 : ¬ maxT < c + tok s ∨ cur = [] := by
        by_cases hm : maxT < c + tok s
        · right
          by_contra hcur
          exact hcond (by simp [hm, List.isEmpty_iff, hcur])
        · exact Or.inl hm
      refine ih _ _ _ (by simp) (fun _ => ?_) ch hch
      rcases hcond2 with hm | hcur
      · exact Or.inl (by omega)
      · rw [h0 hcur]
        rw [List.getLastD_concat]
        right
        omega

/-- Counterexample for C2: with `maxTokens = 10`, `overlap = 8` and token
counts given by string length, every sentence of the input is within the
budget (length ≤ 10), yet the chunk at index 1 is emitted with
`token_count = 13 > maxTokens`: the overlap seed plus the sentence that
triggered the previous close exceed the budget together even though no
single sentence does. -/
theorem chunkText_token_bound_counterexample :
    (∀ s ∈ splitIntoSentences "aaaaaaa. bbbb. cccc. d.", s.length ≤ 10) ∧
    (∃ ch ∈ chunkText String.length "aaaaaaa. bbbb. cccc. d." 10 8,
      10 < ch.token_count) ∧
    (∃ ch ∈ chunkTextS String.length "aaaaaaa. bbbb. cccc. d." 10 8,
      10 < ch.token_count ∧ ∀ s ∈ ch.sentences, s.length ≤ 10) := by
  decide

/-- C2 (amended): every chunk emitted by `chunkText` is non-empty and
satisfies `token_count ≤ maxTokens`, except chunks consisting of the
overlap seed plus the single sentence pushed right after it, whose
token count is still bounded by `overlap` plus the token count of the
chunk's last sentence (for the first chunk the seed is empty, giving
the single-oversized-sentence case of the original claim). -/
theorem chunkText_token_bound (tok : String → Nat) (text : String)
    (maxTokens overlap : Nat) :
    ∀ ch ∈ chunkTextS tok text maxTokens overlap,
      ch.sentences ≠ [] ∧
      (ch.token_count ≤ maxTokens ∨
        ch.token_count ≤ overlap + tok (ch.sentences.getLastD "")) := by
  intro ch hch
  unfold chunkTextS at hch
  by_cases he : (trimChars text.data).length = 0
  · rw [if_pos he] at hch
    cases hch
  · rw [if_neg he] at hch
    exact chunkLoop_token_bound tok maxTokens overlap
      (splitIntoSentences text) [] 0 0 (fun _ => rfl) (fun h => absurd rfl h) ch hch

/-- Witness for the amended C2 at a concrete input: the oversized chunk
at index 1 of the counterexample run satisfies the amended bound
`token_count ≤ overlap + tok(last sentence)` (13 ≤ 8 + 5). -/
theorem chunkText_token_bound_witness :
    (⟨["aaaaaaa.", "bbbb."], 13, 1⟩ : SChunk) ∈
      chunkTextS String.length "aaaaaaa. bbbb. cccc. d." 10 8 ∧
    (["aaaaaaa.", "bbbb."] : List String) ≠ [] ∧
    (13 ≤ 10 ∨ 13 ≤ 8 + String.length ((["aaaaaaa.", "bbbb."] : List String).getLastD "")) :=
  ⟨by decide,
   (chunkText_token_bound String.length "aaaaaaa. bbbb. cccc. d." 10 8
      ⟨["aaaaaaa.", "bbbb."], 13, 1⟩ (by decide)).1,
   (chunkText_token_bound String.length "aaaaaaa. bbbb. cccc. d." 10 8
      ⟨["aaaaaaa.", "bbbb."], 13, 1⟩ (by decide)).2⟩

/-! ### Chunk indices (C10) -/

theorem chunkLoop_indices (tok : String → Nat) (maxT ov : Nat) :
    ∀ rest cur c idx,
      (chunkLoop tok maxT ov rest cur c idx).map (fun ch => ch.chunk_index) =
        List.range' idx (chunkLoop tok maxT ov rest cur c idx).length := by
  intro rest
  induction rest with
  | nil =>
    intro cur c idx
    rw [chunkLoop]
    by_cases hcur : cur.isEmpty
    · rw [if_pos hcur]; rfl
    · rw [if_neg hcur]; rfl
  | cons s rest ih =>
    intro cur c idx
    rw [chunkLoop]
    by_cases hcond : (decide (maxT < c + tok s) && !cur.isEmpty) = true
    · rw [if_pos hcond]
      simp only [List.map_cons, List.length_cons, List.range'_succ]
      rw [ih]
    · rw [if_neg hcond]
      exact ih _ _ _

/-- C10: the chunks emitted by `chunkText` carry consecutive
`chunk_index` values starting at 0: the list of indices, in output
order, is exactly `0, 1, ..., n-1`. -/
theorem chunkText_indices (tok : String → Nat) (text : String)
    (maxTokens overlap : Nat) :
    (chunkText tok text maxTokens overlap).map (fun ch => ch.chunk_index) =
      List.range (chunkText tok text maxTokens overlap).length := by
  unfold chunkText chunkTextS
  by_cases he : (trimChars text.data).length = 0
  · rw [if_pos he]; rfl
  · rw [if_neg he]
    rw [List.map_map, List.length_map, List.range_eq_range']
    exact chunkLoop_indices tok maxTokens overlap (splitIntoSentences text) [] 0 0

/-! ### Chunk overlap (C3) -/

theorem getD_mem_of_lt {α : Type} (l : List α) (i : Nat) (d : α) (h : i < l.length) :
    l.getD i d ∈ l := by
  rw [List.getD_eq_getElem?_getD, List.getElem?_eq_getElem h]
  exact List.getElem_mem h

theorem chunkLoop_head_ext (tok : String → Nat) (maxT ov : Nat) :
    ∀ rest cur c idx,
      chunkLoop tok maxT ov rest cur c idx = [] ∨
      ∃ ext, ((chunkLoop tok maxT ov rest cur c idx).getD 0 dSChunk).sentences = cur ++ ext := by
  intro rest
  induction rest with
  | nil =>
    intro cur c idx
    rw [chunkLoop]
    by_cases hcur : cur.isEmpty
    · rw [if_pos hcur]; exact Or.inl rfl
    · rw [if_neg hcur]; exact Or.inr ⟨[], by simp⟩
  | cons s rest ih =>
    intro cur c idx
    rw [chunkLoop]
    by_cases hcond : (decide (maxT < c + tok s) && !cur.isEmpty) = true
    · rw [if_pos hcond]
      exact Or.inr ⟨[], by simp⟩
    · rw [if_neg hcond]
      rcases ih (cur ++ [s]) (c + tok s) idx with h | ⟨ext, hext⟩
      · exact Or.inl h
      · exact Or.inr ⟨[s] ++ ext, by rw [hext, List.append_assoc]⟩

/-- Loop lemma for overlap: the sentence list of each emitted chunk
after the first starts with the overlap seed computed from the
previously emitted chunk. -/
theorem chunkLoop_consecutive (tok : String → Nat) (maxT ov : Nat) :
    ∀ rest cur c idx i,
      i + 1 < (chunkLoop tok maxT ov rest cur c idx).length →
      ∃ ext,
        ((chunkLoop tok maxT ov rest cur c idx).getD (i + 1) dSChunk).sentences =
          (overlapSeed tok ov
            (((chunkLoop tok maxT ov rest cur c idx).getD i dSChunk).sentences)).1 ++ ext := by
  intro rest
  induction rest with
  | nil =>
    intro cur c idx i h
    rw [chunkLoop] at h
    by_cases hcur : cur.isEmpty
    · rw [if_pos hcur] at h; simp at h
    · rw [if_neg hcur] at h; simp at h
  | cons s rest ih =>
    intro cur c idx i h
    rw [chunkLoop] at h ⊢
    by_cases hcond : (decide (maxT < c + tok s) && !cur.isEmpty) = true
    · rw [if_pos hcond] at h ⊢
      cases i with
      | zero =>
        have hlen : 0 <
            (chunkLoop tok maxT ov rest ((overlapSeed tok ov cur).1 ++ [s])
              ((overlapSeed tok ov cur).2 + tok s) (idx + 1)).length := by
          simpa using h
        have hne : chunkLoop tok maxT ov rest ((overlapSeed tok ov cur).1 ++ [s])
            ((overlapSeed tok ov cur).2 + tok s) (idx + 1) ≠ [] := by
          intro he
          rw [he] at hlen
          simp at hlen
        rcases chunkLoop_head_ext tok maxT ov rest ((overlapSeed tok ov cur).1 ++ [s])
            ((overlapSeed tok ov cur).2 + tok s) (idx + 1) with he | ⟨ext, hext⟩
        · exact absurd he hne
        · refine ⟨[s] ++ ext, ?_⟩
          rw [List.getD_cons_succ, List.getD_cons_zero, hext, List.append_assoc]
      | succ j =>
        rw [List.getD_cons_succ, List.getD_cons_succ]
        exact ih _ _ _ j (by simpa using h)
    · rw [if_neg hcond] at h ⊢
      exact ih _ _ _ i h

theorem chunkTextS_sentences_ne_nil (tok : String → Nat) (text : String)
    (maxTokens overlap : Nat) :
    ∀ ch ∈ chunkTextS tok text maxTokens overlap, ch.sentences ≠ [] := by
  intro ch hch
  unfold chunkTextS at hch
  by_cases he : (trimChars text.data).length = 0
  · rw [if_pos he] at hch; cases hch
  · rw [if_neg he] at hch
    exact (chunkLoop_token_bound tok maxTokens overlap (splitIntoSentences text) [] 0 0
      (fun _ => rfl) (fun h => absurd rfl h) ch hch).1

/-- C3 (amended): whenever `chunkText` emits more than one chunk, every
later chunk of a consecutive pair starts with the overlap seed computed
from the earlier chunk: that seed is a suffix of the earlier chunk's
sentences and a prefix of the later chunk's sentences, its combined
token count is at most `overlap`, and it is non-empty provided the
overlap budget is positive and the earlier chunk's last sentence fits
into it (with `overlap = 0`, or a last sentence larger than the budget,
the shared overlap is empty, refuting the unconditional non-emptiness of
the original claim). -/
theorem chunkText_overlap (tok : String → Nat) (text : String)
    (maxTokens overlap : Nat) (i : Nat)
    (h : i + 1 < (chunkTextS tok text maxTokens overlap).length) :
    (overlapSeed tok overlap
        (((chunkTextS tok text maxTokens overlap).getD i dSChunk).sentences)).1.IsSuffix
      (((chunkTextS tok text maxTokens overlap).getD i dSChunk).sentences) ∧
    (overlapSeed tok overlap
        (((chunkTextS tok text maxTokens overlap).getD i dSChunk).sentences)).1.IsPrefix
      (((chunkTextS tok text maxTokens overlap).getD (i + 1) dSChunk).sentences) ∧
    sumTok tok (overlapSeed tok overlap
        (((chunkTextS tok text maxTokens overlap).getD i dSChunk).sentences)).1 ≤ overlap ∧
    (0 < overlap →
      tok ((((chunkTextS tok text maxTokens overlap).getD i dSChunk).sentences).getLastD "") ≤
        overlap →
      (overlapSeed tok overlap
        (((chunkTextS tok text maxTokens overlap).getD i dSChunk).sentences)).1 ≠ []) := by
  have hspec := overlapSeed_spec tok overlap
    (((chunkTextS tok text maxTokens overlap).getD i dSChunk).sentences)
  refine ⟨hspec.1, ?_, ?_, ?_⟩
  · have hcons : ∃ ext,
        (((chunkTextS tok text maxTokens overlap).getD (i + 1) dSChunk).sentences) =
          (overlapSeed tok overlap
            (((chunkTextS tok text maxTokens overlap).getD i dSChunk).sentences)).1 ++ ext := by
      unfold chunkTextS at h ⊢
      by_cases he : (trimChars text.data).length = 0
      · rw [if_pos he] at h; simp at h
      · rw [if_neg he] at h ⊢
        exact chunkLoop_consecutive tok maxTokens overlap (splitIntoSentences text) [] 0 0 i h
    obtain ⟨ext, hext⟩ := hcons
    exact ⟨ext, hext.symm⟩
  · rw [← hspec.2.1]; exact hspec.2.2
  · intro hov hlast
    refine overlapSeed_ne_nil tok overlap _ ?_ hov hlast
    refine chunkTextS_sentences_ne_nil tok text maxTokens overlap _ ?_
    exact getD_mem_of_lt _ i dSChunk (by omega)

/-- Counterexample for C3: with `overlap = 0` the run on "aa. bb."
produces two chunks that share no sentence at all — there is no
non-empty common suffix/prefix, let alone one within the overlap
budget. -/
theorem chunkText_overlap_counterexample :
    1 < (chunkTextS String.length "aa. bb." 3 0).length ∧
    ¬ ∃ s : List String, s ≠ [] ∧
        s.IsSuffix (((chunkTextS String.length "aa. bb." 3 0).getD 0 dSChunk).sentences) ∧
        s.IsPrefix (((chunkTextS String.length "aa. bb." 3 0).getD 1 dSChunk).sentences) ∧
        sumTok String.length s ≤ 0 := by
  constructor
  · decide
  · rintro ⟨s, hne, hsuf, hpre, hsum⟩
    have e0 : (((chunkTextS String.length "aa. bb." 3 0).getD 0 dSChunk).sentences) =
        ["aa."] := by decide
    have e1 : (((chunkTextS String.length "aa. bb." 3 0).getD 1 dSChunk).sentences) =
        ["bb."] := by decide
    rw [e0] at hsuf
    rw [e1] at hpre
    obtain ⟨t, ht⟩ := hpre
    obtain ⟨u, hu⟩ := hsuf
    cases s with
    | nil => exact hne rfl
    | cons a s2 =>
      have ha : a = "bb." := by
        cases s2 with
        | nil => simpa using congrArg (fun l => l.headD "") ht
        | cons b s3 => simp at ht
      have hlen : u.length + (a :: s2).length = 1 := by
        have := congrArg List.length hu
        simpa using this
      have hu0 : u = [] := by
        have : u.length = 0 := by simp at hlen; omega
        exact List.length_eq_zero.mp this
      rw [hu0] at hu
      simp at hu
      rw [ha] at hu
      exact absurd hu.1 (by decide)

/-- Witness for the amended C3 at a concrete input: on "aa. bb." with
`maxTokens = 3`, `overlap = 3`, the two chunks are `["aa."]` and
`["aa.", "bb."]`; the overlap seed of the first chunk is a suffix of it,
a prefix of the second chunk, fits the budget, and is non-empty. -/
theorem chunkText_overlap_witness :
    (overlapSeed String.length 3
        (((chunkTextS String.length "aa. bb." 3 3).getD 0 dSChunk).sentences)).1.IsSuffix
      (((chunkTextS String.length "aa. bb." 3 3).getD 0 dSChunk).sentences) ∧
    (overlapSeed String.length 3
        (((chunkTextS String.length "aa. bb." 3 3).getD 0 dSChunk).sentences)).1.IsPrefix
      (((chunkTextS String.length "aa. bb." 3 3).getD 1 dSChunk).sentences) ∧
    sumTok String.length (overlapSeed String.length 3
        (((chunkTextS String.length "aa. bb." 3 3).getD 0 dSChunk).sentences)).1 ≤ 3 ∧
    (overlapSeed String.length 3
        (((chunkTextS String.length "aa. bb." 3 3).getD 0 dSChunk).sentences)).1 ≠ [] := by
  have h := chunkText_overlap String.length "aa. bb." 3 3 0 (by decide)
  exact ⟨h.1, h.2.1, h.2.2.1, h.2.2.2 (by decide) (by decide)⟩

/-! ### Retrieval orchestrator (C1) -/

theorem filterTake_threshold (l : List (SimRec × ℚ)) (θ : ℚ) (n : Nat) :
    ∀ r ∈ ((l.filter fun c => decide (θ ≤ c.2)).take n).map toChunkResult,
      θ ≤ r.relevanceScore := by
  intro r hr
  obtain ⟨c, hc, rfl⟩ := List.mem_map.mp hr
  exact of_decide_eq_true (List.mem_filter.mp (List.mem_of_mem_take hc)).2

theorem filterTake_length (l : List (SimRec × ℚ)) (θ : ℚ) (n : Nat) :
    (((l.filter fun c => decide (θ ≤ c.2)).take n).map toChunkResult).length ≤ n := by
  rw [List.length_map, List.length_take]
  exact min_le_left n _

theorem filterTake_sorted (l : List (SimRec × ℚ)) (θ : ℚ) (n : Nat)
    (hl : List.Pairwise (fun a b : SimRec × ℚ => b.2 ≤ a.2) l) :
    List.Pairwise (fun a b : RagChunkResult => b.relevanceScore ≤ a.relevanceScore)
      (((l.filter fun c => decide (θ ≤ c.2)).take n).map toChunkResult) := by
  refine List.Pairwise.map _ (fun a b hab => hab) ?_
  exact List.Pairwise.sublist (List.take_sublist n _) (hl.filter _)

theorem ranked_pairwise (resp : Nat → Option String) (query : String)
    (documents : List String) (cands : List SimRec) :
    List.Pairwise (fun a b : SimRec × ℚ => b.2 ≤ a.2)
      ((rerank resp query documents).map fun r =>
        (cands.getD r.index emptySimRec, r.relevanceScore)) :=
  List.Pairwise.map _ (fun _ _ hab => hab) (rerank_sorted resp query documents)

/-- C1: whenever `RagService.query` reaches result assembly (returns
`ok`), the final results list is exactly the reranked candidate list —
in the rerank's order — filtered to relevance score at or above the
threshold and truncated to `topN`; consequently every returned item has
`relevanceScore ≥ threshold`, the list has at most `topN` items, and the
items are in descending relevance-score order (the rerank's order, not
the cosine-similarity order). -/
theorem ragQuery_spec (resp : Nat → Option String) (query : String)
    (queryEmbedding : List ℚ) (allEmbeddings : List PDFEmbedding)
    (topN : Nat) (threshold : ℚ) (initialTopK : Nat) (res : RagQueryResult)
    (h : ragQuery resp query queryEmbedding allEmbeddings topN threshold initialTopK =
      Except.ok res) :
    (∀ r ∈ res.results, threshold ≤ r.relevanceScore) ∧
    res.results.length ≤ topN ∧
    List.Pairwise (fun a b : RagChunkResult => b.relevanceScore ≤ a.relevanceScore)
      res.results ∧
    ∃ sims, computeSimilarities queryEmbedding allEmbeddings = Except.ok sims ∧
      res.results =
        ((((rerank resp query
              (((List.insertionSort simLE sims).take
                  (min initialTopK (List.insertionSort simLE sims).length)).map
                fun c => c.emb.chunk_text.getD "")).map
            fun r =>
              (((List.insertionSort simLE sims).take
                  (min initialTopK (List.insertionSort simLE sims).length)).getD
                r.index emptySimRec, r.relevanceScore)).filter
          fun c => decide (threshold ≤ c.2)).take topN).map toChunkResult := by
  unfold ragQuery at h
  by_cases he : allEmbeddings.length = 0
  · rw [if_pos he] at h
    exact Except.noConfusion h
  · rw [if_neg he] at h
    cases hcs : computeSimilarities queryEmbedding allEmbeddings with
    | error msg => rw [hcs] at h; exact Except.noConfusion h
    | ok sims =>
      rw [hcs] at h
      have hres := Except.ok.inj h
      subst hres
      exact ⟨filterTake_threshold _ _ _, filterTake_length _ _ _,
        filterTake_sorted _ _ _ (ranked_pairwise _ _ _ _), sims, rfl, rfl⟩

/-- Witness for C1 at a concrete input: one stored record with a
1-dimensional embedding, the model answering "1"; the query returns the
record with relevance score 1 and the theorem's bounds hold. -/
theorem ragQuery_spec_witness :
    (∀ r ∈ ({ query := "q",
              results := [{ text := "hello", filename := "doc.pdf", chunkIndex := 0,
                            similarity := 1, relevanceScore := 1, tokenCount := 5 }],
              metadata := { totalChunks := 1, candidatesEvaluated := 1,
                            resultsReturned := 1, threshold := 0 } } :
        RagQueryResult).results, (0 : ℚ) ≤ r.relevanceScore) ∧
    ({ query := "q",
       results := [{ text := "hello", filename := "doc.pdf", chunkIndex := 0,
                     similarity := 1, relevanceScore := 1, tokenCount := 5 }],
       metadata := { totalChunks := 1, candidatesEvaluated := 1,
                     resultsReturned := 1, threshold := 0 } } :
      RagQueryResult).results.length ≤ 3 := by
  have hcos : cosineSimilarity [1] [1] = Except.ok 1 := by
    unfold cosineSimilarity
    rw [if_neg (by decide)]
    have h1 : sumSq [1] = 1 := by norm_num [sumSq]
    have hsq : Rat.sqrt 1 = 1 := by
      rw [show (1 : ℚ) = 1 * 1 from by norm_num, Rat.sqrt_eq]
      norm_num
    rw [h1, hsq]
    rw [if_neg (by norm_num)]
    have h2 : sumProd [1] [1] = 1 := by norm_num [sumProd]
    rw [h2]
    norm_num
  have hcsim : computeSimilarities [1]
      [(⟨1, "doc.pdf", 0, some "hello", [1], "m", 1, some 5, "t"⟩ : PDFEmbedding)] =
      Except.ok [⟨⟨1, "doc.pdf", 0, some "hello", [1], "m", 1, some 5, "t"⟩, 1⟩] := by
    rw [computeSimilarities]
    rw [show (⟨1, "doc.pdf", 0, some "hello", [1], "m", 1, some 5, "t"⟩ :
        PDFEmbedding).embedding = [1] from rfl]
    rw [hcos]
    rfl
  have h : ragQuery (fun _ => some "1") "q" [1]
      [(⟨1, "doc.pdf", 0, some "hello", [1], "m", 1, some 5, "t"⟩ : PDFEmbedding)]
      3 0 20 =
      Except.ok
        { query := "q",
          results := [{ text := "hello", filename := "doc.pdf", chunkIndex := 0,
                        similarity := 1, relevanceScore := 1, tokenCount := 5 }],
          metadata := { totalChunks := 1, candidatesEvaluated := 1,
                        resultsReturned := 1, threshold := 0 } } := by
    unfold ragQuery
    rw [if_neg (by decide), hcsim]
    rfl
  have hs := ragQuery_spec (fun _ => some "1") "q" [1]
    [(⟨1, "doc.pdf", 0, some "hello", [1], "m", 1, some 5, "t"⟩ : PDFEmbedding)]
    3 0 20 _ h
  exact ⟨hs.1, hs.2.1⟩

/-! ### Transactional bulk insert (C5) -/

theorem runOps_append (s : DbState) (l1 l2 : List DbOp) :
    runOps s (l1 ++ l2) = runOps (runOps s l1) l2 := by
  simp [runOps]

theorem loopOps_all_inserts (fails : Nat → Bool) :
    ∀ recs i, ∀ op ∈ (loopOps fails recs i).1, ∃ r, op = DbOp.insertRow r := by
  intro recs
  induction recs with
  | nil => intro i op hop; cases hop
  | cons e rest ih =>
    intro i op hop
    rw [loopOps] at hop
    by_cases hf : fails i
    · rw [if_pos hf] at hop; cases hop
    · rw [if_neg hf] at hop
      rcases List.mem_cons.mp hop with rfl | hmem
      · exact ⟨toRow e, rfl⟩
      · exact ih (i + 1) op hmem

theorem runOps_inserts (C : List EmbeddingRow) :
    ∀ ops, (∀ op ∈ ops, ∃ r, op = DbOp.insertRow r) →
      ∀ p, ∃ q, runOps ⟨C, some p⟩ ops = ⟨C, some q⟩ := by
  intro ops
  induction ops with
  | nil => intro _ p; exact ⟨p, rfl⟩
  | cons op rest ih =>
    intro hall p
    obtain ⟨r, rfl⟩ := hall op (List.mem_cons_self op rest)
    exact ih (fun o ho => hall o (List.mem_cons_of_mem _ ho)) (p ++ [r])

theorem loopOps_success (fails : Nat → Bool) :
    ∀ recs i C p, (loopOps fails recs i).2 = true →
      runOps ⟨C, some p⟩ (loopOps fails recs i).1 = ⟨C, some (p ++ recs.map toRow)⟩ := by
  intro recs
  induction recs with
  | nil => intro i C p _; simp [loopOps, runOps]
  | cons e rest ih =>
    intro i C p hok
    rw [loopOps] at hok ⊢
    by_cases hf : fails i
    · rw [if_pos hf] at hok; cases hok
    · rw [if_neg hf] at hok ⊢
      have step : runOps ⟨C, some p⟩
          (DbOp.insertRow (toRow e) :: (loopOps fails rest (i + 1)).1) =
          runOps ⟨C, some (p ++ [toRow e])⟩ (loopOps fails rest (i + 1)).1 := rfl
      rw [step, ih (i + 1) C (p ++ [toRow e]) hok]
      simp

/-- C5: `saveEmbeddings` is atomic: the committed table after the run
equals the old table extended by all the rows exactly when the bulk
insert succeeded, and is unchanged when any insert failed (the
transaction is rolled back and the call reports a `DatabaseError`);
an empty input issues no statement at all, leaves the store untouched
and reports success. -/
theorem saveEmbeddings_atomic (fails : Nat → Bool) (s : DbState)
    (records : List EmbeddingInput) :
    (runOps s (saveEmbeddings fails records)).committed =
      (if saveOk fails records then s.committed ++ records.map toRow
       else s.committed) ∧
    (saveResult fails records = Except.ok () ↔ saveOk fails records = true) ∧
    saveEmbeddings fails [] = [] ∧
    saveResult fails [] = Except.ok () ∧
    runOps s (saveEmbeddings fails []) = s := by
  refine ⟨?_, ?_, rfl, rfl, rfl⟩
  · unfold saveEmbeddings
    by_cases hn : records.length = 0
    · rw [if_pos hn]
      have hrec : records = [] := List.length_eq_zero.mp hn
      subst hrec
      simp [saveOk, loopOps, runOps]
    · rw [if_neg hn]
      have hsplit : runOps s
          (DbOp.beginTxn :: (loopOps fails records 0).1 ++
            [if saveOk fails records then DbOp.commitTxn else DbOp.rollbackTxn]) =
          runOps (runOps ⟨s.committed, some []⟩ (loopOps fails records 0).1)
            [if saveOk fails records then DbOp.commitTxn else DbOp.rollbackTxn] := by
        rw [show (DbOp.beginTxn :: (loopOps fails records 0).1 ++
            [if saveOk fails records then DbOp.commitTxn else DbOp.rollbackTxn]) =
            (DbOp.beginTxn :: (loopOps fails records 0).1) ++
            [if saveOk fails records then DbOp.commitTxn else DbOp.rollbackTxn] from by simp,
          runOps_append]
        rfl
      rw [hsplit]
      by_cases hok : saveOk fails records
      · rw [loopOps_success fails records 0 s.committed [] hok]
        rw [if_pos hok, if_pos hok]
        simp [runOps, applyOp]
      · obtain ⟨q, hq⟩ := runOps_inserts s.committed (loopOps fails records 0).1
          (loopOps_all_inserts fails records 0) []
        rw [hq]
        rw [if_neg hok, if_neg hok]
        rfl
  · unfold saveResult
    by_cases hn : records.length = 0
    · rw [if_pos hn]
      have hrec : records = [] := List.length_eq_zero.mp hn
      subst hrec
      simp [saveOk, loopOps]
    · rw [if_neg hn]
      by_cases hok : saveOk fails records
      · rw [if_pos hok]; simp [hok]
      · rw [if_neg hok]; simp [hok]
